import Mathlib

/-!
Shallow embedding of the `process_lib` core (src/src/lib.rs) together with
models of the identifier and message types whose defining modules
(`process_id.rs`, `address.rs`, `message.rs`, `capability.rs`,
`lazy_load_blob.rs`) are declared in lib.rs but are not present in the
source tree; those are modelled from the specification.

Strings of the runtime are embedded as `List Char`; byte vectors
(`Vec<u8>`) as `List Nat`.  External inputs of the Kernel Boundary
(`receive()`, `our_capabilities()`, `get_blob()`, `get_state()`) are passed
to each function as explicit arguments.
-/

namespace ProcessLib

/-- Modelled from the spec: Rust's `str::split(sep)` over character lists.
`splitOn sep s` yields the (always non-empty) list of separator-free
segments of `s`; splitting the empty string yields `[[]]`, matching
`"".split(sep)` yielding one empty segment. -/
def splitOn (sep : Char) : List Char → List (List Char)
  | [] => [[]]
  | c :: cs =>
    if c = sep then [] :: splitOn sep cs
    else
      match splitOn sep cs with
      | [] => [[c]]
      | s :: ss => (c :: s) :: ss

/-- Joining with a separator: left inverse of `splitOn`. -/
def joinSep (sep : Char) : List (List Char) → List Char
  | [] => []
  | [x] => x
  | x :: y :: xs => x ++ sep :: joinSep sep (y :: xs)

/-- Modelled from the spec: `ProcessId` (process_id.rs is absent from src/):
`{ process_name, package_name, publisher_node }`, canonical text form
`"<process_name>:<package_name>:<publisher_node>"`, all fields non-empty
after parsing. -/
structure ProcessId where
  process_name : List Char
  package_name : List Char
  publisher_node : List Char
deriving DecidableEq, Repr

/-- Modelled from the spec: the canonical text form of a `ProcessId`
(`format!("{}:{}:{}", ...)`). -/
def ProcessId.format (p : ProcessId) : List Char :=
  p.process_name ++ (':' :: (p.package_name ++ (':' :: p.publisher_node)))

/-- Modelled from the spec: `ProcessId` parsing splits on `:` and fails
(returns `none` rather than panicking) on fewer or more than three
colon-separated segments, or on an empty segment. -/
def ProcessId.parse (s : List Char) : Option ProcessId :=
  match splitOn ':' s with
  | [pn, pk, pb] =>
    if pn = [] ∨ pk = [] ∨ pb = [] then none
    else some ⟨pn, pk, pb⟩
  | _ => none

/-- A `ProcessId` is valid when its three fields are non-empty and free of
the `:` separator — exactly the values producible by `ProcessId.parse`. -/
def ProcessId.valid (p : ProcessId) : Prop :=
  p.process_name ≠ [] ∧ p.package_name ≠ [] ∧ p.publisher_node ≠ [] ∧
    ':' ∉ p.process_name ∧ ':' ∉ p.package_name ∧ ':' ∉ p.publisher_node

instance (p : ProcessId) : Decidable p.valid := by
  unfold ProcessId.valid; infer_instance

/-- Modelled from the spec: `Address` (address.rs is absent from src/):
`{ node, process }`, canonical text form `"<node>@<process...>"`. -/
structure Address where
  node : List Char
  process : ProcessId
deriving DecidableEq, Repr

/-- Modelled from the spec: the canonical text form of an `Address`. -/
def Address.format (a : Address) : List Char :=
  a.node ++ '@' :: a.process.format

/-- Modelled from the spec: `Address` parsing splits on `@` then delegates
the right part to `ProcessId.parse`; fails on a malformed shape or an
empty node segment, never panics. -/
def Address.parse (s : List Char) : Option Address :=
  match splitOn '@' s with
  | [node, process] =>
    if node = [] then none
    else
      match ProcessId.parse process with
      | some p => some ⟨node, p⟩
      | none => none
  | _ => none

/-- The body of `init` generated by the `call_init!` macro (lib.rs 67-78):
`let our: Address = our.parse().unwrap(); $init_func(our);`.  The `unwrap`
panic on a malformed self-address is embedded as `none`: the fatal branch
never reaches `init_func`. -/
def call_init {R : Type} (init_func : Address → R) (our : List Char) : Option R :=
  match Address.parse our with
  | some a => some (init_func a)
  | none => none

/-- Model of `serde_json::Value` as used by `get_capability` (lib.rs
209-218).  Numbers are modelled by integers only (the params strings this
library compares are JSON-encoded capability parameters; fractional and
exponent number forms are outside the model and fail to parse).  Objects
are modelled as key-sorted association lists, matching `serde_json`'s
default `Map` backed by a `BTreeMap`, whose equality is key-order
insensitive. -/
inductive Json where
  | null
  | bool (b : Bool)
  | num (n : Int)
  | str (s : String)
  | arr (xs : List Json)
  | obj (fields : List (String × Json))
deriving Repr

mutual

/-- Structural equality test on `Json`, modelling `serde_json::Value`'s
`PartialEq` (objects compare as maps; on the sorted normal form produced
by the parser this is structural equality of the field lists). -/
def Json.beq : Json → Json → Bool
  | .null, .null => true
  | .bool a, .bool b => a == b
  | .num a, .num b => a == b
  | .str a, .str b => a == b
  | .arr xs, .arr ys => Json.beqList xs ys
  | .obj xs, .obj ys => Json.beqFields xs ys
  | _, _ => false

/-- Element-wise equality of `Json` arrays. -/
def Json.beqList : List Json → List Json → Bool
  | [], [] => true
  | x :: xs, y :: ys => Json.beq x y && Json.beqList xs ys
  | _, _ => false

/-- Field-wise equality of (sorted) `Json` object field lists. -/
def Json.beqFields : List (String × Json) → List (String × Json) → Bool
  | [], [] => true
  | (k, v) :: xs, (l, w) :: ys => k == l && Json.beq v w && Json.beqFields xs ys
  | _, _ => false

end

/-- The `{` character, used by the JSON parser. -/
def lbrace : Char := Char.ofNat 123

/-- The `}` character, used by the JSON parser. -/
def rbrace : Char := Char.ofNat 125

/-- JSON insignificant whitespace (space, tab, line feed, carriage return). -/
def isJsonWs (c : Char) : Bool :=
  c = ' ' || c = '\t' || c = '\n' || c = '\r'

/-- Drop leading JSON whitespace. -/
def skipWs : List Char → List Char
  | [] => []
  | c :: cs => if isJsonWs c then skipWs cs else c :: cs

/-- Lexicographic order on character lists by code point, the order of
Rust's `Ord` on `String` (UTF-8 byte order agrees with code-point order). -/
def charListLt : List Char → List Char → Bool
  | [], [] => false
  | [], _ :: _ => true
  | _ :: _, [] => false
  | c :: cs, d :: ds =>
    if c.toNat = d.toNat then charListLt cs ds else decide (c.toNat < d.toNat)

/-- Insert a field into a key-sorted field list.  The object parser folds
members from the right, so a binding already present came later in the
document; keeping it models `serde_json`'s sequential `BTreeMap::insert`,
under which the last duplicate key wins. -/
def insertField (k : String) (v : Json) : List (String × Json) → List (String × Json)
  | [] => [(k, v)]
  | (l, w) :: rest =>
    if k = l then (l, w) :: rest
    else if charListLt k.data l.data then (k, v) :: (l, w) :: rest
    else (l, w) :: insertField k v rest

/-- Parse the remainder of a JSON string literal after its opening quote,
returning the decoded string and the input after the closing quote.
Escapes `\" \\ \/ \n \t \r \b \f` are decoded; `\uXXXX` is outside the
model. -/
def parseStringRest : List Char → Option (String × List Char)
  | [] => none
  | '"' :: rest => some ("", rest)
  | '\\' :: e :: rest =>
    (match e with
      | '"' => some '"'
      | '\\' => some '\\'
      | '/' => some '/'
      | 'n' => some '\n'
      | 't' => some '\t'
      | 'r' => some '\r'
      | 'b' => some (Char.ofNat 8)
      | 'f' => some (Char.ofNat 12)
      | _ => none).bind fun c =>
      (parseStringRest rest).bind fun (s, rest') =>
        some (String.mk (c :: s.data), rest')
  | c :: rest => (parseStringRest rest).bind fun (s, rest') =>
      some (String.mk (c :: s.data), rest')

/-- Take the maximal leading run of ASCII digits. -/
def takeDigits : List Char → List Char × List Char
  | [] => ([], [])
  | c :: cs =>
    if c.isDigit then
      match takeDigits cs with
      | (ds, rest) => (c :: ds, rest)
    else ([], c :: cs)

/-- Decimal value of a digit run. -/
def digitsToNat (ds : List Char) : Nat :=
  ds.foldl (fun n c => 10 * n + (c.toNat - 48)) 0

/-- Parse a JSON integer starting at the digits (sign already consumed):
at least one digit, no leading zero before further digits (JSON's
`0|[1-9][0-9]*`). -/
def parseIntDigits (s : List Char) : Option (Nat × List Char) :=
  match takeDigits s with
  | ([], _) => none
  | (d :: ds, rest) =>
    if d = '0' ∧ ds ≠ [] then none
    else some (digitsToNat (d :: ds), rest)

/-- Expect a literal run of characters. -/
def expectChars : List Char → List Char → Option (List Char)
  | [], rest => some rest
  | _, [] => none
  | e :: es, c :: cs => if c = e then expectChars es cs else none

mutual

/-- Fuel-indexed recursive-descent parser for one JSON value, modelling
`serde_json::from_str::<Value>` on the subset described at `Json`.
Returns the value and the unconsumed input. -/
def parseValue : Nat → List Char → Option (Json × List Char)
  | 0, _ => none
  | fuel + 1, s =>
    match skipWs s with
    | [] => none
    | c :: rest =>
      if c = 'n' then
        (expectChars ['u', 'l', 'l'] rest).bind fun rest' => some (Json.null, rest')
      else if c = 't' then
        (expectChars ['r', 'u', 'e'] rest).bind fun rest' => some (Json.bool true, rest')
      else if c = 'f' then
        (expectChars ['a', 'l', 's', 'e'] rest).bind fun rest' => some (Json.bool false, rest')
      else if c = '"' then
        (parseStringRest rest).bind fun (str, rest') => some (Json.str str, rest')
      else if c = '-' then
        (parseIntDigits rest).bind fun (n, rest') => some (Json.num (-(n : Int)), rest')
      else if c.isDigit then
        (parseIntDigits (c :: rest)).bind fun (n, rest') => some (Json.num (n : Int), rest')
      else if c = '[' then
        match skipWs rest with
        | ']' :: rest' => some (Json.arr [], rest')
        | after => (parseArrayItems fuel after).bind fun (xs, rest') =>
            some (Json.arr xs, rest')
      else if c = lbrace then
        match skipWs rest with
        | d :: rest' =>
          if d = rbrace then some (Json.obj [], rest')
          else (parseObjectItems fuel (d :: rest')).bind fun (fs, rest'') =>
            some (Json.obj fs, rest'')
        | [] => none
      else none

/-- Parse the comma-separated items of a non-empty JSON array, up to and
including the closing bracket. -/
def parseArrayItems : Nat → List Char → Option (List Json × List Char)
  | 0, _ => none
  | fuel + 1, s =>
    (parseValue fuel s).bind fun (v, rest) =>
      match skipWs rest with
      | ',' :: rest' => (parseArrayItems fuel rest').bind fun (vs, rest'') =>
          some (v :: vs, rest'')
      | ']' :: rest' => some ([v], rest')
      | _ => none

/-- Parse the comma-separated members of a non-empty JSON object, up to
and including the closing brace, accumulating fields into the key-sorted
map form. -/
def parseObjectItems : Nat → List Char → Option (List (String × Json) × List Char)
  | 0, _ => none
  | fuel + 1, s =>
    match skipWs s with
    | '"' :: rest =>
      (parseStringRest rest).bind fun (key, rest') =>
        match skipWs rest' with
        | ':' :: rest'' =>
          (parseValue fuel rest'').bind fun (v, rest3) =>
            match skipWs rest3 with
            | ',' :: rest4 => (parseObjectItems fuel rest4).bind fun (fs, rest5) =>
                some (insertField key v fs, rest5)
            | d :: rest4 =>
              if d = rbrace then some ([(key, v)], rest4) else none
            | [] => none
        | _ => none
    | _ => none

end

/-- Model of `serde_json::from_str::<Value>(s)`: parse a complete JSON document,
requiring only whitespace after the value; `none` is Rust's `Err(_)`. -/
def parseJson (s : String) : Option Json :=
  match parseValue (s.data.length + 1) s.data with
  | some (v, rest) => if skipWs rest = [] then some v else none
  | none => none

/-- Modelled from the spec: `Capability` (capability.rs is absent from
src/): an issuer `Address` plus an opaque params string (JSON-encoded in
practice), compared for byte equality or parsed depending on the caller. -/
structure Capability where
  issuer : Address
  params : String
deriving DecidableEq, Repr

/-- Modelled from the spec: `LazyLoadBlob` (lazy_load_blob.rs is absent
from src/): `{ mime: optional string, bytes: binary }`. -/
structure LazyLoadBlob where
  mime : Option String
  bytes : List Nat
deriving DecidableEq, Repr

/-- The low-level (WIT) send-error kind: `Offline | Timeout`, the only
two constructors. -/
inductive WitSendErrorKind where
  | offline
  | timeout
deriving DecidableEq, Repr

/-- The public `SendErrorKind` re-exported by lib.rs: `Offline | Timeout`,
the only two constructors. -/
inductive SendErrorKind where
  | offline
  | timeout
deriving DecidableEq, Repr

/-- Modelled from the spec: the low-level (WIT) message received from the
Kernel Boundary, before `wit_message_to_message` attaches a source
address: a request carries `expects_response` (timeout seconds), body,
metadata and capabilities; a response carries body, metadata,
capabilities and the correlation `context` bytes. -/
inductive WitMessage where
  | request (expectsResponse : Option Nat) (body : List Nat)
      (metadata : Option String) (capabilities : List Capability)
  | response (body : List Nat) (metadata : Option String)
      (capabilities : List Capability) (context : Option (List Nat))
deriving DecidableEq, Repr

/-- The public `Message` union consumed on receive: the same payload as
`WitMessage` plus the source `Address`. -/
inductive Message where
  | request (source : Address) (expectsResponse : Option Nat) (body : List Nat)
      (metadata : Option String) (capabilities : List Capability)
  | response (source : Address) (body : List Nat) (metadata : Option String)
      (capabilities : List Capability) (context : Option (List Nat))
deriving DecidableEq, Repr

/-- Accessor `Message::body()`: the inline body bytes of either variant. -/
def Message.body : Message → List Nat
  | .request _ _ body _ _ => body
  | .response _ body _ _ _ => body

/-- Accessor `Message::source()`: the source address of either variant. -/
def Message.source : Message → Address
  | .request source _ _ _ _ => source
  | .response source _ _ _ _ => source

/-- Modelled from the spec: `wit_message_to_message` (message.rs is absent
from src/) converts the low-level message into the public `Message`,
preserving body, metadata, capabilities and the request/response payload
fields, and attaching the given source address. -/
def wit_message_to_message (source : Address) : WitMessage → Message
  | .request er body md caps => .request source er body md caps
  | .response body md caps ctx => .response source body md caps ctx

/-- The low-level (WIT) send error returned by a failed `receive()`:
kind, the echoed low-level message and the optional blob attachment. -/
structure WitSendError where
  kind : WitSendErrorKind
  message : WitMessage
  lazy_load_blob : Option LazyLoadBlob
deriving DecidableEq, Repr

/-- The public `SendError` produced by `await_message` (lib.rs 104-115). -/
structure SendError where
  kind : SendErrorKind
  message : Message
  lazy_load_blob : Option LazyLoadBlob
  context : Option (List Nat)
deriving DecidableEq, Repr

/-- The `match send_err.kind` arm inside `await_message` (lib.rs 105-108),
mapping the low-level kind onto the public `SendErrorKind`. -/
def sendErrorKindOfWit : WitSendErrorKind → SendErrorKind
  | .offline => .offline
  | .timeout => .timeout

/-- The address `Address::new("our", ProcessId::new(Some("net"), "distro", "sys"))`:
the synthetic source used for the echoed message of a failed send — the
reserved system networking process on the local node. -/
def netAddress : Address :=
  ⟨"our".data, ⟨"net".data, "distro".data, "sys".data⟩⟩

/-- The result of the Kernel Boundary's blocking `receive()` primitive:
`Result<(Address, Message), (SendError, Option<Context>)>` in WIT terms,
passed to `await_message` as an explicit argument. -/
def ReceiveResult : Type :=
  Except (WitSendError × Option (List Nat)) (Address × WitMessage)

/-- Embeds `await_message` (lib.rs 101-117): convert a successful receive into
the public `Message`; convert a failed receive into a `SendError`, mapping
the kind, rebuilding the echoed message with the synthetic `netAddress`
source, and passing blob and context through. -/
def await_message (recv : ReceiveResult) : Except SendError Message :=
  match recv with
  | .ok (source, message) => .ok (wit_message_to_message source message)
  | .error (send_err, context) =>
    .error
      { kind := sendErrorKindOfWit send_err.kind
        message := wit_message_to_message netAddress send_err.message
        lazy_load_blob := send_err.lazy_load_blob
        context := context }

/-- Embeds `get_typed_blob` (lib.rs 163-174): the result of `get_blob()` is the
explicit first argument; a deserializer failure (Rust `Err(_)`) and an
absent blob both collapse to `none`. -/
def get_typed_blob {T E : Type} (blob : Option LazyLoadBlob)
    (deserializer : List Nat → Except E T) : Option T :=
  match blob with
  | some blob =>
    match deserializer blob.bytes with
    | .ok thing => some thing
    | .error _ => none
  | none => none

/-- Embeds `get_typed_state` (lib.rs 187-198): the result of `get_state()` is the
explicit first argument; a deserializer failure and an absent state both
collapse to `none`. -/
def get_typed_state {T E : Type} (state : Option (List Nat))
    (deserializer : List Nat → Except E T) : Option T :=
  match state with
  | some bytes =>
    match deserializer bytes with
    | .ok thing => some thing
    | .error _ => none
  | none => none

/-- Embeds `can_message` (lib.rs 202-206): the result of `our_capabilities()` is
the explicit first argument.  Byte-equality of params against the literal
`"\"messaging\""` and equality of issuer. -/
def can_message (caps : List Capability) (address : Address) : Bool :=
  caps.any fun cap => cap.params == "\"messaging\"" && cap.issuer == address

/-- Embeds `get_capability` (lib.rs 209-218): the result of `our_capabilities()`
is the explicit first argument.  Both params strings are parsed with
`serde_json::from_str::<Value>` with `unwrap_or_default()` (`Value::Null`
on failure), then compared semantically; first match wins. -/
def get_capability (caps : List Capability) (our : Address) (params : String) :
    Option Capability :=
  let params := (parseJson params).getD Json.null
  caps.find? fun cap =>
    let cap_params := (parseJson cap.params).getD Json.null
    cap.issuer == our && Json.beq params cap_params

/-- Embeds `await_next_message_body` (lib.rs 221-226): on success the body bytes
of the message, on failure the `SendError` itself (`e.into()` is the
identity conversion). -/
def await_next_message_body (recv : ReceiveResult) : Except SendError (List Nat) :=
  match await_message recv with
  | .ok msg => .ok msg.body
  | .error e => .error e

/-- Semantic comparison of two params strings exactly as `get_capability`
performs it: parse each with `unwrap_or_default` and compare the values. -/
def jsonParamsEq (p q : String) : Bool :=
  Json.beq ((parseJson p).getD Json.null) ((parseJson q).getD Json.null)

/-- A sample address used in concrete instances. -/
def addrA : Address :=
  ⟨"alice".data, ⟨"proc".data, "pkg".data, "pub".data⟩⟩

/-- A second, distinct sample address used in concrete instances. -/
def addrB : Address :=
  ⟨"bob".data, ⟨"proc".data, "pkg".data, "pub".data⟩⟩

/-- A sample decoder for the typed accessor theorems: accepts exactly the
byte string `[1]`. -/
def sampleDecoder : List Nat → Except Unit Nat :=
  fun b => if b = [1] then .ok 7 else .error ()

section Helpers

variable {sep : Char}

theorem splitOn_ne_nil (sep : Char) (s : List Char) : splitOn sep s ≠ [] := by
  induction s with
  | nil => simp [splitOn]
  | cons c cs ih =>
    by_cases hc : c = sep
    · simp [splitOn, hc]
    · simp only [splitOn, if_neg hc]
      rcases h : splitOn sep cs with _ | ⟨s, ss⟩ <;> simp

theorem splitOn_of_not_mem {s : List Char} (h : sep ∉ s) : splitOn sep s = [s] := by
  induction s with
  | nil => rfl
  | cons c cs ih =>
    have hc : ¬c = sep := fun hc => h (hc ▸ List.mem_cons_self c cs)
    have hcs : sep ∉ cs := fun hm => h (List.mem_cons_of_mem c hm)
    simp only [splitOn, if_neg hc, ih hcs]

theorem splitOn_append {a : List Char} (r : List Char) (h : sep ∉ a) :
    splitOn sep (a ++ sep :: r) = a :: splitOn sep r := by
  induction a with
  | nil => simp [splitOn]
  | cons c cs ih =>
    have hc : ¬c = sep := fun hc => h (hc ▸ List.mem_cons_self c cs)
    have hcs : sep ∉ cs := fun hm => h (List.mem_cons_of_mem c hm)
    simp only [List.cons_append, splitOn, if_neg hc, List.append_eq, ih hcs]

theorem joinSep_cons (sep : Char) (x : List Char) {ps : List (List Char)}
    (h : ps ≠ []) : joinSep sep (x :: ps) = x ++ sep :: joinSep sep ps := by
  cases ps with
  | nil => exact absurd rfl h
  | cons y ys => rfl

theorem joinSep_splitOn (sep : Char) (s : List Char) :
    joinSep sep (splitOn sep s) = s := by
  induction s with
  | nil => rfl
  | cons c cs ih =>
    by_cases hc : c = sep
    · simp only [splitOn, if_pos hc]
      rw [joinSep_cons sep [] (splitOn_ne_nil sep cs), ih, hc]
      rfl
    · simp only [splitOn, if_neg hc]
      rcases h : splitOn sep cs with _ | ⟨s', ss⟩
      · exact absurd h (splitOn_ne_nil sep cs)
      · rw [h] at ih
        cases ss with
        | nil =>
          simp only [joinSep] at ih ⊢
          rw [ih]
        | cons y ys =>
          have hstep : joinSep sep ((c :: s') :: y :: ys) =
              c :: joinSep sep (s' :: y :: ys) := by
            simp [joinSep, List.cons_append]
          rw [hstep, ih]

theorem find?_congruent {α : Type} (p q : α → Bool) (h : ∀ a, p a = q a) :
    ∀ l : List α, l.find? p = l.find? q := by
  intro l
  induction l with
  | nil => rfl
  | cons a l ih =>
    by_cases ha : p a = true
    · rw [List.find?_cons_of_pos _ ha, List.find?_cons_of_pos _ ((h a) ▸ ha)]
    · rw [List.find?_cons_of_neg _ ha,
        List.find?_cons_of_neg _ (by rw [← h a]; exact ha), ih]

theorem beq_null_right (v : Json) :
    Json.beq Json.null v = (match v with | Json.null => true | _ => false) := by
  cases v <;> rfl

end Helpers

/-- C1: `can_message(a)` is true iff `our_capabilities()` holds a
capability whose issuer equals `a` and whose params equal the reserved
messaging-capability marker `"\"messaging\""`; in particular a held set of
only unrelated capabilities (different issuer or different params) gives
`false`, and an exact match gives `true`. -/
theorem canMessage_iff_marker_capability :
    (∀ (caps : List Capability) (a : Address),
      can_message caps a = true ↔
        ∃ cap ∈ caps, cap.issuer = a ∧ cap.params = "\"messaging\"")
    ∧ can_message [⟨addrB, "\"messaging\""⟩, ⟨addrA, "\"other\""⟩] addrA = false
    ∧ can_message [⟨addrB, "\"other\""⟩, ⟨addrA, "\"messaging\""⟩] addrA = true := by
  refine ⟨fun caps a => ?_, by decide, by decide⟩
  simp only [can_message, List.any_eq_true, Bool.and_eq_true, beq_iff_eq]
  constructor
  · rintro ⟨cap, hmem, hp, hi⟩
    exact ⟨cap, hmem, hi, hp⟩
  · rintro ⟨cap, hmem, hi, hp⟩
    exact ⟨cap, hmem, hp, hi⟩

/-- C7: the bootstrap glue parses the process's own address string and
the fatal branch (`unwrap` panic, embedded as `none`) is taken exactly on
a malformed address, never reaching the entry point; on the well-formed
addresses the Kernel Boundary guarantees, it is unreachable and the entry
point runs. -/
theorem callInit_parse_contract {R : Type} (f : Address → R) :
    (∀ s, Address.parse s = none → call_init f s = none)
    ∧ (∀ s a, Address.parse s = some a → call_init f s = some (f a)) := by
  constructor
  · intro s h
    simp [call_init, h]
  · intro s a h
    simp [call_init, h]

/-- Witness for C7 at a concrete well-formed and a concrete malformed
self-address. -/
theorem callInit_parse_contract_witness :
    call_init (fun a => a) "our@net:distro:sys".data = some netAddress
    ∧ call_init (fun a => a) "no-at-sign".data = none :=
  ⟨(callInit_parse_contract (fun a => a)).2 _ netAddress rfl,
   (callInit_parse_contract (fun a => a)).1 _ rfl⟩

/-- C8: round-trip laws of the `ProcessId` string encoding: parsing the
canonical form of a valid `ProcessId` recovers it, and formatting any
successful parse recovers the input string byte-for-byte (so
`format(parse(s)) = s` for every `s` produced by `format`). -/
theorem processId_roundtrip :
    (∀ p : ProcessId, p.valid → ProcessId.parse p.format = some p)
    ∧ (∀ (s : List Char) (p : ProcessId), ProcessId.parse s = some p →
        p.format = s) := by
  constructor
  · intro p hv
    obtain ⟨h1, h2, h3, h4, h5, h6⟩ := hv
    unfold ProcessId.parse ProcessId.format
    rw [splitOn_append _ h4, splitOn_append _ h5, splitOn_of_not_mem h6]
    simp [h1, h2, h3]
  · intro s p h
    unfold ProcessId.parse at h
    rcases hs : splitOn ':' s with _ | ⟨pn, _ | ⟨pk, _ | ⟨pb, _ | ⟨x, xs⟩⟩⟩⟩ <;>
        rw [hs] at h <;> try exact Option.noConfusion h
    have h' : (if pn = [] ∨ pk = [] ∨ pb = [] then none
        else some (⟨pn, pk, pb⟩ : ProcessId)) = some p := h
    by_cases hne : pn = [] ∨ pk = [] ∨ pb = []
    · rw [if_pos hne] at h'
      exact Option.noConfusion h'
    · rw [if_neg hne] at h'
      have hp : p = ⟨pn, pk, pb⟩ := by
        injection h' with h''
        exact h''.symm
      subst hp
      have hj := joinSep_splitOn ':' s
      rw [hs] at hj
      simpa [ProcessId.format, joinSep] using hj

/-- Witness for C8 at the concrete `ProcessId` `net:distro:sys`. -/
theorem processId_roundtrip_witness :
    ProcessId.parse (ProcessId.format ⟨"net".data, "distro".data, "sys".data⟩) =
      some ⟨"net".data, "distro".data, "sys".data⟩
    ∧ ProcessId.format ⟨"net".data, "distro".data, "sys".data⟩ =
      "net:distro:sys".data :=
  ⟨processId_roundtrip.1 _ (by decide),
   processId_roundtrip.2 "net:distro:sys".data _ rfl⟩

/-- The inline body bytes of a low-level message. -/
def WitMessage.body : WitMessage → List Nat
  | .request _ body _ _ => body
  | .response body _ _ _ => body

/-- The metadata of a low-level message. -/
def WitMessage.metadata : WitMessage → Option String
  | .request _ _ md _ => md
  | .response _ md _ _ => md

/-- The attached capabilities of a low-level message. -/
def WitMessage.capabilities : WitMessage → List Capability
  | .request _ _ _ caps => caps
  | .response _ _ caps _ => caps

/-- The metadata of a public message. -/
def Message.metadata : Message → Option String
  | .request _ _ _ md _ => md
  | .response _ _ md _ _ => md

/-- The attached capabilities of a public message. -/
def Message.capabilities : Message → List Capability
  | .request _ _ _ _ caps => caps
  | .response _ _ _ caps _ => caps

/-- C3: when the Kernel Boundary's receive primitive reports a low-level
send error, `await_message` returns `Err(SendError)` whose echoed message
is rebuilt with the synthetic source `our@net:distro:sys` — the reserved
system networking process on the local node — while the message contents
(body, metadata, capabilities), the lazy-load-blob attachment and the
context bytes pass through from the low-level error unchanged. -/
theorem awaitMessage_error_reconstruction (err : WitSendError)
    (ctx : Option (List Nat)) :
    await_message (Except.error (err, ctx)) =
      Except.error
        { kind := sendErrorKindOfWit err.kind
          message := wit_message_to_message netAddress err.message
          lazy_load_blob := err.lazy_load_blob
          context := ctx }
    ∧ (wit_message_to_message netAddress err.message).source = netAddress
    ∧ (wit_message_to_message netAddress err.message).body = err.message.body
    ∧ (wit_message_to_message netAddress err.message).metadata = err.message.metadata
    ∧ (wit_message_to_message netAddress err.message).capabilities =
        err.message.capabilities
    ∧ Address.parse "our@net:distro:sys".data = some netAddress := by
  refine ⟨rfl, ?_, ?_, ?_, ?_, by decide⟩ <;>
    cases err.message <;> rfl

/-- C4: `await_message` maps the low-level error kind 1:1 onto the public
`SendErrorKind`: `Offline ↦ Offline`, `Timeout ↦ Timeout`; the mapping is
a bijection and the two listed kinds exhaust both types. -/
theorem sendErrorKind_map_one_to_one :
    sendErrorKindOfWit .offline = .offline
    ∧ sendErrorKindOfWit .timeout = .timeout
    ∧ Function.Bijective sendErrorKindOfWit
    ∧ (∀ k : WitSendErrorKind, k = .offline ∨ k = .timeout)
    ∧ (∀ k : SendErrorKind, k = .offline ∨ k = .timeout)
    ∧ (∀ (err : WitSendError) (ctx : Option (List Nat)),
        ∃ e : SendError, await_message (Except.error (err, ctx)) = Except.error e
          ∧ e.kind = sendErrorKindOfWit err.kind) := by
  refine ⟨rfl, rfl, ⟨?_, ?_⟩, ?_, ?_, ?_⟩
  · intro a b hab
    cases a <;> cases b <;> first | rfl | exact absurd hab (by simp [sendErrorKindOfWit])
  · intro k
    cases k with
    | offline => exact ⟨.offline, rfl⟩
    | timeout => exact ⟨.timeout, rfl⟩
  · intro k
    cases k
    · exact Or.inl rfl
    · exact Or.inr rfl
  · intro k
    cases k
    · exact Or.inl rfl
    · exact Or.inr rfl
  · intro err ctx
    exact ⟨_, rfl, rfl⟩

/-- Witness for C4: the two concrete kind mappings extracted from the
theorem. -/
theorem sendErrorKind_map_one_to_one_witness :
    sendErrorKindOfWit .offline = .offline
    ∧ sendErrorKindOfWit .timeout = .timeout :=
  ⟨sendErrorKind_map_one_to_one.1, sendErrorKind_map_one_to_one.2.1⟩

/-- C5: the typed decode helpers return `none` both when the underlying
accessor has nothing (`get_blob()`/`get_state()` returned `None`) and when
the caller-supplied decoder rejects the data, so the two failure modes are
indistinguishable in the result; when the decoder accepts, the decoded
value is returned. -/
theorem getTyped_failures_collapse_to_none {T E : Type}
    (f : List Nat → Except E T) :
    get_typed_blob none f = none
    ∧ get_typed_state none f = none
    ∧ (∀ (blob : LazyLoadBlob) (e : E), f blob.bytes = .error e →
        get_typed_blob (some blob) f = none)
    ∧ (∀ (bytes : List Nat) (e : E), f bytes = .error e →
        get_typed_state (some bytes) f = none)
    ∧ (∀ (blob : LazyLoadBlob) (t : T), f blob.bytes = .ok t →
        get_typed_blob (some blob) f = some t)
    ∧ (∀ (bytes : List Nat) (t : T), f bytes = .ok t →
        get_typed_state (some bytes) f = some t) := by
  refine ⟨rfl, rfl, ?_, ?_, ?_, ?_⟩ <;> intro x y h <;>
    simp [get_typed_blob, get_typed_state, h]

/-- Witness for C5 with a concrete decoder accepting exactly `[1]`: both
failure modes yield `none`, and acceptance yields the decoded value. -/
theorem getTyped_failures_collapse_to_none_witness :
    get_typed_blob none sampleDecoder = none
    ∧ get_typed_state none sampleDecoder = none
    ∧ get_typed_blob (some ⟨none, [2]⟩) sampleDecoder = none
    ∧ get_typed_state (some [2]) sampleDecoder = none
    ∧ get_typed_blob (some ⟨none, [1]⟩) sampleDecoder = some 7
    ∧ get_typed_state (some [1]) sampleDecoder = some 7 :=
  ⟨(getTyped_failures_collapse_to_none sampleDecoder).1,
   (getTyped_failures_collapse_to_none sampleDecoder).2.1,
   (getTyped_failures_collapse_to_none sampleDecoder).2.2.1 ⟨none, [2]⟩ () rfl,
   (getTyped_failures_collapse_to_none sampleDecoder).2.2.2.1 [2] () rfl,
   (getTyped_failures_collapse_to_none sampleDecoder).2.2.2.2.1 ⟨none, [1]⟩ 7 rfl,
   (getTyped_failures_collapse_to_none sampleDecoder).2.2.2.2.2 [1] 7 rfl⟩

/-- C6: `await_next_message_body` composes `await_message`: it equals
`await_message` with `Message::body` applied to the success value, so a
successful receive yields exactly the body bytes of the received message
and a failed receive propagates the `SendError` (`e.into()` being the
identity conversion); no other outcome exists. -/
theorem awaitNextMessageBody_composition :
    (∀ recv : ReceiveResult,
      await_next_message_body recv = (await_message recv).map Message.body)
    ∧ (∀ (src : Address) (m : WitMessage),
        await_next_message_body (Except.ok (src, m)) =
          Except.ok (wit_message_to_message src m).body)
    ∧ (∀ (recv : ReceiveResult) (e : SendError),
        await_message recv = Except.error e →
          await_next_message_body recv = Except.error e) := by
  refine ⟨fun recv => ?_, fun src m => rfl, fun recv e h => ?_⟩
  · unfold await_next_message_body
    cases await_message recv <;> rfl
  · unfold await_next_message_body
    rw [h]

/-- Witness for C6 at a concrete failed receive: the timeout `SendError`
built by `await_message` is propagated unchanged. -/
theorem awaitNextMessageBody_composition_witness :
    await_next_message_body
        (Except.error (⟨.timeout, .request none [3] none [], none⟩, some [9])) =
      Except.error
        { kind := .timeout
          message := .request netAddress none [3] none []
          lazy_load_blob := none
          context := some [9] } :=
  awaitNextMessageBody_composition.2.2
    (Except.error (⟨.timeout, .request none [3] none [], none⟩, some [9])) _ rfl

theorem get_capability_eq_find (caps : List Capability) (our : Address)
    (params : String) :
    get_capability caps our params =
      caps.find? (fun cap => cap.issuer == our && jsonParamsEq params cap.params) :=
  rfl

/-- C2: `get_capability` linearly scans the held capabilities, comparing
issuer by equality and params by equality of the semantically parsed JSON
values: a returned capability is a held match, `none` means no held
capability matches, the first match in list order wins, and the params
comparison is insensitive to JSON object key order, so held params
`{"a":1,"b":2}` are found by a lookup with params `{"b":2,"a":1}`. -/
theorem getCapability_semantic_json :
    (∀ (caps : List Capability) (our : Address) (params : String) (cap : Capability),
      get_capability caps our params = some cap →
        cap ∈ caps ∧ cap.issuer = our ∧ jsonParamsEq params cap.params = true)
    ∧ (∀ (caps : List Capability) (our : Address) (params : String),
        get_capability caps our params = none ↔
          ∀ cap ∈ caps, cap.issuer = our → jsonParamsEq params cap.params = false)
    ∧ (∀ (pre post : List Capability) (our : Address) (params : String)
        (cap : Capability),
        (∀ c ∈ pre, ¬(c.issuer = our ∧ jsonParamsEq params c.params = true)) →
        cap.issuer = our → jsonParamsEq params cap.params = true →
        get_capability (pre ++ cap :: post) our params = some cap)
    ∧ get_capability [⟨addrA, "\x7b\"a\":1,\"b\":2\x7d"⟩] addrA
        "\x7b\"b\":2,\"a\":1\x7d" = some ⟨addrA, "\x7b\"a\":1,\"b\":2\x7d"⟩ := by
  refine ⟨?_, ?_, ?_, rfl⟩
  · intro caps our params cap h
    rw [get_capability_eq_find] at h
    have hmem := List.mem_of_find?_eq_some h
    have hp := List.find?_some h
    rw [Bool.and_eq_true, beq_iff_eq] at hp
    exact ⟨hmem, hp.1, hp.2⟩
  · intro caps our params
    rw [get_capability_eq_find, List.find?_eq_none]
    constructor
    · intro h cap hmem hiss
      have := h cap hmem
      rw [Bool.and_eq_true, beq_iff_eq] at this
      rcases hj : jsonParamsEq params cap.params with _ | _
      · rfl
      · exact absurd ⟨hiss, hj⟩ this
    · intro h cap hmem
      rw [Bool.and_eq_true, beq_iff_eq]
      rintro ⟨hiss, hj⟩
      rw [h cap hmem hiss] at hj
      exact Bool.noConfusion hj
  · intro pre post our params cap hpre hiss hj
    rw [get_capability_eq_find]
    induction pre with
    | nil =>
      apply List.find?_cons_of_pos
      rw [Bool.and_eq_true, beq_iff_eq]
      exact ⟨hiss, hj⟩
    | cons c cs ih =>
      rw [List.cons_append]
      rw [List.find?_cons_of_neg]
      · exact ih fun x hx => hpre x (List.mem_cons_of_mem c hx)
      · intro hc
        rw [Bool.and_eq_true, beq_iff_eq] at hc
        exact hpre c (List.mem_cons_self c cs) hc

/-- Witness for C2: the first matching capability wins and a
whitespace-different but semantically equal params encoding matches. -/
theorem getCapability_semantic_json_witness :
    get_capability [⟨addrB, "\"x\""⟩, ⟨addrA, "\x7b\"a\": 1\x7d"⟩] addrA
        "\x7b\"a\":1\x7d" = some ⟨addrA, "\x7b\"a\": 1\x7d"⟩ :=
  getCapability_semantic_json.2.2.1 [⟨addrB, "\"x\""⟩] [] addrA "\x7b\"a\":1\x7d"
    ⟨addrA, "\x7b\"a\": 1\x7d"⟩ (by decide) rfl (by decide)

/-- C9: `can_message` compares params by byte equality against the exact
11-byte literal `"\"messaging\""`, not semantically: whenever no held
capability has byte-identical params, the result is `false`, even though
the whitespace variant `" \"messaging\""` is byte-different yet parses to
the same JSON value as the marker. -/
theorem canMessage_requires_byte_equal_marker :
    (∀ (caps : List Capability) (a : Address),
      (∀ cap ∈ caps, cap.params ≠ "\"messaging\"") → can_message caps a = false)
    ∧ jsonParamsEq " \"messaging\"" "\"messaging\"" = true
    ∧ " \"messaging\"" ≠ "\"messaging\"" := by
  refine ⟨?_, rfl, by decide⟩
  intro caps a h
  rw [← Bool.not_eq_true, can_message, List.any_eq_true]
  rintro ⟨cap, hmem, hp⟩
  rw [Bool.and_eq_true, beq_iff_eq, beq_iff_eq] at hp
  exact h cap hmem hp.1

/-- Witness for C9: a capability for the right issuer whose params are a
semantically equal but byte-different encoding of the marker does not
enable messaging. -/
theorem canMessage_requires_byte_equal_marker_witness :
    can_message [⟨addrA, " \"messaging\""⟩] addrA = false :=
  canMessage_requires_byte_equal_marker.1 [⟨addrA, " \"messaging\""⟩] addrA
    (by decide)

/-- C10: in `get_capability`, a params string that fails to parse as JSON
is replaced by the default value `null` (`unwrap_or_default`) before
comparison: a lookup with unparseable params returns the first held
capability whose issuer matches and whose params are also unparseable or
parse to JSON `null`, and any two unparseable params strings compare as
equal. -/
theorem getCapability_unparseable_params_default_null :
    (∀ (caps : List Capability) (our : Address) (params : String),
      parseJson params = none →
        get_capability caps our params =
          caps.find? fun cap => cap.issuer == our &&
            (match parseJson cap.params with
             | none => true
             | some Json.null => true
             | some _ => false))
    ∧ (∀ p q : String, parseJson p = none → parseJson q = none →
        jsonParamsEq p q = true) := by
  constructor
  · intro caps our params hp
    rw [get_capability_eq_find]
    refine find?_congruent _ _ (fun cap => ?_) caps
    unfold jsonParamsEq
    rw [hp]
    cases hq : parseJson cap.params with
    | none => rfl
    | some w => cases w <;> rfl
  · intro p q hp hq
    unfold jsonParamsEq
    rw [hp, hq]
    rfl

/-- Witness for C10: a lookup with unparseable params `"%%%"` skips a
non-matching issuer and returns the held capability with unparseable
params `"@@"`; the two unparseable strings compare as equal. -/
theorem getCapability_unparseable_params_default_null_witness :
    get_capability [⟨addrB, "\"x\""⟩, ⟨addrA, "@@"⟩] addrA "%%%" =
      some ⟨addrA, "@@"⟩
    ∧ jsonParamsEq "%%%" "@@" = true := by
  constructor
  · rw [getCapability_unparseable_params_default_null.1
      [⟨addrB, "\"x\""⟩, ⟨addrA, "@@"⟩] addrA "%%%" rfl]
    decide
  · exact getCapability_unparseable_params_default_null.2 "%%%" "@@" rfl rfl

end ProcessLib
